import Mathlib

/-!
# MCP3008 sampler: `readADC` and the sampling loop of `main`

A shallow embedding of `src/src/main.cpp` (with the constants of `src/inc/main.h`).

* `uint8_t` values are natural numbers below 256; a store into a `uint8_t` cell is
  `toUInt8` (reduction modulo 2^8).
* `int16_t` values are integers; a store into an `int16_t` cell is `toInt16`
  (two's-complement wrap to 16 bits).
* The SPI bus (`wiringPiSPIDataRW`, from the external wiringPi library) is a parameter:
  a device decides the bytes clocked back, and every exchange is appended to a log.
* `int16_t adcData[6]` is a list; an access outside the list has no defined result
  (`none`).
* The log file is the list of lines `writeFile` appended to it.
-/

namespace MCP3008

/-! ## Constants of `main.h` -/

/-- Constant `SPI_CHANNEL_0` of `main.h`. -/
def SPI_CHANNEL_0 : Nat := 0

/-- Constant `SPI_CHANNEL_1` of `main.h`: the chip select used by `main`. -/
def SPI_CHANNEL_1 : Nat := 1

/-- Constant `CHAN_CONF_SING` of `main.h`: the single-ended mode selector. -/
def CHAN_CONF_SING : Nat := 8

/-- Constant `CHAN_CONF_DIFF` of `main.h`: the differential mode selector. -/
def CHAN_CONF_DIFF : Nat := 0

/-! ## Machine integers -/

/-- Conversion of an `int` to `uint8_t`: the low eight bits. -/
def toUInt8 (n : Nat) : Nat := n % 256

/-- Conversion of an `int` to `int16_t`: two's-complement wrap to sixteen bits. -/
def toInt16 (x : Int) : Int := (x + 32768) % 65536 - 32768

/-! ## The SPI bus -/

/-- One full-duplex transfer as seen from the program: the chip-select channel and the
bytes that were in the buffer when the transfer started. -/
structure Exchange where
  channel : Nat
  sent : List Nat
deriving DecidableEq

/-- The device on the bus: given the transfers made so far and the current one, the value
it clocks back at each byte position. -/
abbrev SpiDevice := List Exchange → Exchange → Nat → Nat

/-- The call `wiringPiSPIDataRW(channel, data, len)`: one transfer of `len` bytes that overwrites
the buffer in place with the bytes read back. Returns the new buffer and the extended
transfer log. -/
def wiringPiSPIDataRW (dev : SpiDevice) (log : List Exchange) (channel : Nat)
    (buf : List Nat) : List Nat × List Exchange :=
  ((List.range buf.length).map (fun i => toUInt8 (dev log ⟨channel, buf⟩ i)),
    log ++ [⟨channel, buf⟩])

/-- A mock device that answers every transfer with the same three bytes. -/
def fixedReply (b0 b1 b2 : Nat) : SpiDevice := fun _ _ i => [b0, b1, b2].getD i 0

/-! ## `readADC` -/

/-- Lines 107-108 of `main.cpp`: `uint8_t buf[3] = {1}; buf[1] = (confMode + adcChannel) << 4;` -/
def commandFrame (confMode adcChannel : Nat) : List Nat :=
  ([1, 0, 0] : List Nat).set 1 (toUInt8 ((confMode + adcChannel) <<< 4))

/-- The function `int16_t readADC(uint8_t spiChannel, uint8_t confMode, uint8_t adcChannel)`
(lines 103-112): the range check, the command frame, one transfer, and the decoding
`res = ((buf[1] & 0x03) << 8) + buf[2]` stored into an `int16_t`. Returns the value and the transfer log after the call. -/
def readADC (dev : SpiDevice) (log : List Exchange) (spiChannel confMode adcChannel : Nat) :
    Int × List Exchange :=
  if adcChannel < 0 ∨ adcChannel > 7 then (-1, log)
  else
    let xfer := wiringPiSPIDataRW dev log spiChannel (commandFrame confMode adcChannel)
    (toInt16 ((((xfer.1.getD 1 0 &&& 0x03) <<< 8) + xfer.1.getD 2 0 : Nat) : Int), xfer.2)

/-! ## The sampling loop of `main` -/

/-- The globals `isRunning`, `adcData`, `idx` (lines 53-55) together with the two external
resources the loop touches: the SPI transfer log and the lines of the log file. -/
structure LoopState where
  isRunning : Bool
  adcData : List Int
  idx : Nat
  spiLog : List Exchange
  logFile : List String
deriving DecidableEq

/-- The globals as defined: `isRunning = true`, `adcData[6] = {0}`, `idx = 0`; nothing
transferred and nothing logged yet. -/
def initialState : LoopState :=
  { isRunning := true, adcData := List.replicate 6 0, idx := 0, spiLog := [], logFile := [] }

/-- Lines 75-76: `if(idx >= 6) { idx = 0; } idx++;` on the `uint8_t idx`. -/
def advance (idx : Nat) : Nat :=
  toUInt8 ((if idx ≥ 6 then 0 else idx) + 1)

/-- Line 72: `sprintf(logMsg, "A%d: %d", idx, adcData[idx])`. -/
def logRecord (idx : Nat) (v : Int) : String :=
  "A" ++ toString idx ++ ": " ++ toString v

/-- The function `writeFile` (lines 115-120): open for append, write the text and a line
end, close. The file is the list of its lines. -/
def writeFile (file : List String) (data : String) : List String :=
  file ++ [data]

/-- One pass through the body of `while(isRunning)` (lines 68-76). The store
`adcData[idx] = val` and the load `adcData[idx]` are defined only inside the array;
`delayMicroseconds(20)` changes no state. -/
def loopBody (dev : SpiDevice) (s : LoopState) : Option LoopState :=
  let r := readADC dev s.spiLog SPI_CHANNEL_1 CHAN_CONF_SING s.idx
  if s.idx < s.adcData.length then
    let adcData := s.adcData.set s.idx r.1
    match adcData[s.idx]? with
    | none => none
    | some v =>
      some { s with
        adcData := adcData
        idx := advance s.idx
        spiLog := r.2
        logFile := writeFile s.logFile (logRecord s.idx v) }
  else none

/-- The first `n` passes of `while(isRunning) { ... }`; `none` when a pass has no defined
result. -/
def runLoop (dev : SpiDevice) : Nat → LoopState → Option LoopState
  | 0, s => some s
  | n + 1, s => if s.isRunning then (loopBody dev s).bind (runLoop dev n) else some s

/-- The step of lines 75-76 applied `n` times to 0. It is the value of `idx` at the start
of pass `n` (counting from 0) as long as every earlier pass has a defined result, that is
for `n` up to 6; it takes no account of the store `adcData[idx] = val` of line 69. -/
def idxAt (n : Nat) : Nat := advance^[n] 0

/-! ## Auxiliary facts: machine integers and the command frame -/

theorem toUInt8_lt (n : Nat) : toUInt8 n < 256 := by
  unfold toUInt8
  omega

theorem toInt16_of_small (n : Nat) (h : n < 32768) : toInt16 (n : Int) = (n : Int) := by
  unfold toInt16
  omega

theorem commandFrame_eq (confMode adcChannel : Nat) :
    commandFrame confMode adcChannel = [1, toUInt8 ((confMode + adcChannel) <<< 4), 0] := rfl

/-- The buffer after the transfer of a command frame holds three bytes. -/
theorem transfer_commandFrame (dev : SpiDevice) (log : List Exchange)
    (spiChannel confMode adcChannel : Nat) :
    (wiringPiSPIDataRW dev log spiChannel (commandFrame confMode adcChannel)).1 =
      [toUInt8 (dev log ⟨spiChannel, commandFrame confMode adcChannel⟩ 0),
       toUInt8 (dev log ⟨spiChannel, commandFrame confMode adcChannel⟩ 1),
       toUInt8 (dev log ⟨spiChannel, commandFrame confMode adcChannel⟩ 2)] := rfl

/-- The two result bits taken from byte 1 and the eight of byte 2 never overlap and
never reach bit 10. -/
theorem decode_bits (b1 b2 : Nat) (h2 : b2 < 256) :
    ((b1 &&& 0x03) <<< 8) + b2 = ((b1 &&& 0x03) <<< 8) ||| b2 ∧
    ((b1 &&& 0x03) <<< 8) + b2 = 256 * (b1 % 4) + b2 ∧
    ((b1 &&& 0x03) <<< 8) + b2 ≤ 1023 := by
  have hand : b1 &&& 0x03 = b1 % 4 := Nat.and_pow_two_sub_one_eq_mod b1 2
  have hlt : b1 % 4 < 4 := Nat.mod_lt _ (by decide)
  have hshift : (b1 % 4) <<< 8 = 2 ^ 8 * (b1 % 4) := by
    rw [Nat.shiftLeft_eq, Nat.mul_comm]
  have hor := Nat.mul_add_lt_is_or (i := 8) (b := b2) (by simpa using h2) (b1 % 4)
  rw [hand, hshift]
  refine ⟨hor, by norm_num, ?_⟩
  norm_num
  omega

/-- For a channel in range, `readADC` is the decoding of the transferred frame together
with the log extended by that one transfer. -/
theorem readADC_in_range (dev : SpiDevice) (log : List Exchange)
    (spiChannel confMode adcChannel : Nat) (hc : adcChannel ≤ 7) :
    readADC dev log spiChannel confMode adcChannel =
      (toInt16 ((((toUInt8 (dev log ⟨spiChannel, commandFrame confMode adcChannel⟩ 1) &&& 0x03) <<< 8)
          + toUInt8 (dev log ⟨spiChannel, commandFrame confMode adcChannel⟩ 2) : Nat) : Int),
        log ++ [⟨spiChannel, commandFrame confMode adcChannel⟩]) := by
  have hn : ¬ (adcChannel < 0 ∨ adcChannel > 7) := by omega
  unfold readADC
  rw [if_neg hn]
  rfl

/-- For a channel in range the value `readADC` returns, as a natural number. -/
theorem readADC_value (dev : SpiDevice) (log : List Exchange)
    (spiChannel confMode adcChannel : Nat) (hc : adcChannel ≤ 7) :
    (readADC dev log spiChannel confMode adcChannel).1 =
      ((((toUInt8 (dev log ⟨spiChannel, commandFrame confMode adcChannel⟩ 1) &&& 0x03) <<< 8)
          + toUInt8 (dev log ⟨spiChannel, commandFrame confMode adcChannel⟩ 2) : Nat) : Int) := by
  rw [readADC_in_range dev log spiChannel confMode adcChannel hc]
  have h := (decode_bits (toUInt8 (dev log ⟨spiChannel, commandFrame confMode adcChannel⟩ 1))
    (toUInt8 (dev log ⟨spiChannel, commandFrame confMode adcChannel⟩ 2)) (toUInt8_lt _)).2.2
  exact toInt16_of_small _ (by omega)

/-- Claim C1. For a channel in 0..7, any mode selector and any reply `[b0, b1, b2]` the
transfer leaves in the buffer, `readADC` returns `((b1 & 0x03) << 8) | b2`, which is
`256 * (b1 mod 4) + b2`: `b0` and the upper six bits of `b1` play no part. A reply
`[_, 0x02, 0x34]` gives 564; low bits `0b11` in byte 1 with byte 2 `0x09` give 777. -/
theorem readADC_decodes_reply (dev : SpiDevice) (log : List Exchange)
    (spiChannel confMode adcChannel b0 b1 b2 : Nat) (hc : adcChannel ≤ 7)
    (hbuf : (wiringPiSPIDataRW dev log spiChannel (commandFrame confMode adcChannel)).1
      = [b0, b1, b2]) :
    (readADC dev log spiChannel confMode adcChannel).1
        = ((((b1 &&& 0x03) <<< 8) ||| b2 : Nat) : Int) ∧
    (readADC dev log spiChannel confMode adcChannel).1 = ((256 * (b1 % 4) + b2 : Nat) : Int) ∧
    (b1 = 0x02 → b2 = 0x34 → (readADC dev log spiChannel confMode adcChannel).1 = 564) ∧
    (b1 &&& 0x03 = 0b11 → b2 = 0x09 →
      (readADC dev log spiChannel confMode adcChannel).1 = 777) := by
  rw [transfer_commandFrame] at hbuf
  simp only [List.cons.injEq, and_true] at hbuf
  obtain ⟨-, h1, h2⟩ := hbuf
  have hb2 : b2 < 256 := h2 ▸ toUInt8_lt _
  have hv := readADC_value dev log spiChannel confMode adcChannel hc
  rw [h1, h2] at hv
  obtain ⟨hor, hmod, -⟩ := decode_bits b1 b2 hb2
  refine ⟨by rw [hv, hor], by rw [hv, hmod], ?_, ?_⟩
  · intro e1 e2
    rw [hv, e1, e2]
    rfl
  · intro e1 e2
    rw [hv, e1, e2]
    rfl

/-- Witness for `readADC_decodes_reply`: single-ended read of channel 1 from a device
answering `[0xAB, 0x02, 0x34]`. -/
theorem readADC_decodes_reply_witness :
    (1 ≤ 7) ∧
    (wiringPiSPIDataRW (fixedReply 0xAB 0x02 0x34) [] SPI_CHANNEL_1
      (commandFrame CHAN_CONF_SING 1)).1 = [0xAB, 0x02, 0x34] ∧
    (readADC (fixedReply 0xAB 0x02 0x34) [] SPI_CHANNEL_1 CHAN_CONF_SING 1).1 = 564 :=
  ⟨by decide, rfl,
    (readADC_decodes_reply (fixedReply 0xAB 0x02 0x34) [] SPI_CHANNEL_1 CHAN_CONF_SING 1
      0xAB 0x02 0x34 (by decide) rfl).2.2.1 rfl rfl⟩

/-- Claim C2. For a channel `c` in 0..7 and either mode selector (`CHAN_CONF_SING` = 8,
`CHAN_CONF_DIFF` = 0), `readADC` adds exactly one transfer to the bus log, of exactly
three bytes, sending `[0x01, (mode + c) << 4, 0x00]`. The sum `mode + c` fits in four
bits, so the 8-bit store loses nothing: byte 1 has `mode + c` in its high nibble and a
zero low nibble (`0x80 + 0x10 * c` single-ended, `0x10 * c` differential). -/
theorem readADC_sends_command (dev : SpiDevice) (log : List Exchange)
    (spiChannel confMode c : Nat) (hc : c ≤ 7)
    (hm : confMode = CHAN_CONF_SING ∨ confMode = CHAN_CONF_DIFF) :
    (readADC dev log spiChannel confMode c).2
        = log ++ [⟨spiChannel, [0x01, (confMode + c) <<< 4, 0x00]⟩] ∧
    (readADC dev log spiChannel confMode c).2.length = log.length + 1 ∧
    ([0x01, (confMode + c) <<< 4, 0x00] : List Nat).length = 3 ∧
    confMode + c < 16 ∧
    (confMode + c) <<< 4 < 256 ∧
    ((confMode + c) <<< 4) / 16 = confMode + c ∧
    ((confMode + c) <<< 4) % 16 = 0 ∧
    (confMode = CHAN_CONF_SING → (confMode + c) <<< 4 = 0x80 + 0x10 * c) ∧
    (confMode = CHAN_CONF_DIFF → (confMode + c) <<< 4 = 0x10 * c) := by
  have hsum : confMode + c < 16 := by
    rcases hm with h | h <;> rw [h] <;> simp only [CHAN_CONF_SING, CHAN_CONF_DIFF] <;> omega
  have hshift : (confMode + c) <<< 4 = 16 * (confMode + c) := by
    rw [Nat.shiftLeft_eq, Nat.mul_comm]
  have hbyte : toUInt8 ((confMode + c) <<< 4) = (confMode + c) <<< 4 := by
    unfold toUInt8
    omega
  have hlog : (readADC dev log spiChannel confMode c).2
      = log ++ [⟨spiChannel, [0x01, (confMode + c) <<< 4, 0x00]⟩] := by
    rw [readADC_in_range dev log spiChannel confMode c hc, commandFrame_eq, hbyte]
  refine ⟨hlog, ?_, rfl, hsum, by omega, by omega, by omega, ?_, ?_⟩
  · rw [hlog]
    simp
  · intro h
    rw [hshift, h]
    simp only [CHAN_CONF_SING]
    omega
  · intro h
    rw [hshift, h]
    simp only [CHAN_CONF_DIFF]
    omega

/-- Witness for `readADC_sends_command`: single-ended read of channel 5 sends
`[0x01, 0xD0, 0x00]` on chip select 1. -/
theorem readADC_sends_command_witness :
    (5 ≤ 7) ∧ (CHAN_CONF_SING = CHAN_CONF_SING ∨ CHAN_CONF_SING = CHAN_CONF_DIFF) ∧
    (readADC (fixedReply 0 0x02 0x34) [] SPI_CHANNEL_1 CHAN_CONF_SING 5).2
      = [⟨1, [0x01, 0xD0, 0x00]⟩] :=
  ⟨by decide, Or.inl rfl,
    (readADC_sends_command (fixedReply 0 0x02 0x34) [] SPI_CHANNEL_1 CHAN_CONF_SING 5
      (by decide) (Or.inl rfl)).1⟩

/-- Claim C3. For an ADC channel outside 0..7 (any `uint8_t` value 8..255), whatever the
SPI channel and the mode selector, `readADC` returns the sentinel -1 and leaves the bus
log as it was: no transfer takes place. -/
theorem readADC_rejects_channel (dev : SpiDevice) (log : List Exchange)
    (spiChannel confMode adcChannel : Nat) (h8 : 8 ≤ adcChannel) (h255 : adcChannel ≤ 255) :
    (readADC dev log spiChannel confMode adcChannel).1 = -1 ∧
    (readADC dev log spiChannel confMode adcChannel).2 = log := by
  have hin : adcChannel < 0 ∨ adcChannel > 7 := by omega
  unfold readADC
  rw [if_pos hin]
  exact ⟨rfl, rfl⟩

/-- Witness for `readADC_rejects_channel`: channel 8 on a bus that already saw one
transfer. -/
theorem readADC_rejects_channel_witness :
    (8 ≤ 8) ∧ (8 ≤ 255) ∧
    (readADC (fixedReply 0 0x02 0x34) [⟨1, [1, 128, 0]⟩] SPI_CHANNEL_1 CHAN_CONF_SING 8).1 = -1 ∧
    (readADC (fixedReply 0 0x02 0x34) [⟨1, [1, 128, 0]⟩] SPI_CHANNEL_1 CHAN_CONF_SING 8).2
      = [⟨1, [1, 128, 0]⟩] :=
  ⟨by decide, by decide,
    readADC_rejects_channel (fixedReply 0 0x02 0x34) [⟨1, [1, 128, 0]⟩] SPI_CHANNEL_1
      CHAN_CONF_SING 8 (by decide) (by decide)⟩

/-- Claim C4. For a channel in 0..7, any mode selector (in particular the two valid ones)
and any device on the bus, the `int16_t` value `readADC` returns lies in [0, 1023]: it is
not negative, every bit above bit 9 is zero, and it is never the sentinel -1. -/
theorem readADC_value_range (dev : SpiDevice) (log : List Exchange)
    (spiChannel confMode adcChannel : Nat) (hc : adcChannel ≤ 7) :
    0 ≤ (readADC dev log spiChannel confMode adcChannel).1 ∧
    (readADC dev log spiChannel confMode adcChannel).1 ≤ 1023 ∧
    (readADC dev log spiChannel confMode adcChannel).1 / 1024 = 0 ∧
    (readADC dev log spiChannel confMode adcChannel).1.toNat >>> 10 = 0 ∧
    (readADC dev log spiChannel confMode adcChannel).1 ≠ -1 := by
  have hv := readADC_value dev log spiChannel confMode adcChannel hc
  have hle := (decode_bits (toUInt8 (dev log ⟨spiChannel, commandFrame confMode adcChannel⟩ 1))
    (toUInt8 (dev log ⟨spiChannel, commandFrame confMode adcChannel⟩ 2)) (toUInt8_lt _)).2.2
  rw [hv]
  refine ⟨by omega, by omega, by omega, ?_, by omega⟩
  rw [Int.toNat_natCast, Nat.shiftRight_eq_div_pow]
  norm_num
  omega

/-- Witness for `readADC_value_range`: differential read of channel 7 from a device
answering all ones. -/
theorem readADC_value_range_witness :
    (7 ≤ 7) ∧
    0 ≤ (readADC (fixedReply 0xFF 0xFF 0xFF) [] SPI_CHANNEL_1 CHAN_CONF_DIFF 7).1 ∧
    (readADC (fixedReply 0xFF 0xFF 0xFF) [] SPI_CHANNEL_1 CHAN_CONF_DIFF 7).1 ≤ 1023 :=
  ⟨by decide,
    (readADC_value_range (fixedReply 0xFF 0xFF 0xFF) [] SPI_CHANNEL_1 CHAN_CONF_DIFF 7
      (by decide)).1,
    (readADC_value_range (fixedReply 0xFF 0xFF 0xFF) [] SPI_CHANNEL_1 CHAN_CONF_DIFF 7
      (by decide)).2.1⟩

/-! ## Auxiliary facts: the index step and the loop body -/

/-- The step of lines 75-76 in closed form: an index of 6 or more is followed by 1. -/
theorem advance_eq (i : Nat) : advance i = if 6 ≤ i then 1 else i + 1 := by
  unfold advance toUInt8
  split <;> omega

theorem idxAt_succ (n : Nat) : idxAt (n + 1) = advance (idxAt n) := by
  unfold idxAt
  exact Function.iterate_succ_apply' advance n 0

/-- The index at the start of pass `n + 1` is `n mod 6 + 1`. -/
theorem idxAt_succ_eq (n : Nat) : idxAt (n + 1) = n % 6 + 1 := by
  induction n with
  | zero => rfl
  | succ k ih =>
    rw [idxAt_succ, ih, advance_eq]
    split <;> omega

/-- A pass whose index is inside `adcData` completes: the value is stored, one record is
appended to the file, the index is advanced. -/
theorem loopBody_in_bounds (dev : SpiDevice) (s : LoopState) (h : s.idx < s.adcData.length) :
    loopBody dev s = some
      { s with
        adcData := s.adcData.set s.idx (readADC dev s.spiLog SPI_CHANNEL_1 CHAN_CONF_SING s.idx).1
        idx := advance s.idx
        spiLog := (readADC dev s.spiLog SPI_CHANNEL_1 CHAN_CONF_SING s.idx).2
        logFile := s.logFile ++
          [logRecord s.idx (readADC dev s.spiLog SPI_CHANNEL_1 CHAN_CONF_SING s.idx).1] } := by
  unfold loopBody
  simp [h, writeFile]

/-- A pass whose index is outside `adcData` has no defined result. -/
theorem loopBody_out_of_bounds (dev : SpiDevice) (s : LoopState)
    (h : ¬ s.idx < s.adcData.length) : loopBody dev s = none := by
  unfold loopBody
  simp [h]

theorem runLoop_stopped (dev : SpiDevice) (n : Nat) (s : LoopState) (h : s.isRunning = false) :
    runLoop dev n s = some s := by
  cases n with
  | zero => rfl
  | succ k => simp [runLoop, h]

/-- Running `m + n` passes is running `m` and then `n`. -/
theorem runLoop_add (dev : SpiDevice) (m n : Nat) (s : LoopState) :
    runLoop dev (m + n) s = (runLoop dev m s).bind (runLoop dev n) := by
  induction m generalizing s with
  | zero => simp [runLoop]
  | succ k ih =>
    rw [Nat.add_right_comm]
    cases hrun : s.isRunning with
    | false => simp [runLoop, hrun, runLoop_stopped dev n s hrun]
    | true =>
      simp only [runLoop, hrun, if_true]
      cases loopBody dev s with
      | none => rfl
      | some t => simpa using ih t

/-- From a running state with a six-element buffer, `n` passes complete as long as the
index has not passed 6: each pass appends one record and moves the index up by one. -/
theorem runLoop_first_passes (dev : SpiDevice) (n : Nat) (s : LoopState)
    (hrun : s.isRunning = true) (hlen : s.adcData.length = 6) (hidx : s.idx + n ≤ 6) :
    ∃ s', runLoop dev n s = some s' ∧ s'.isRunning = true ∧ s'.adcData.length = 6 ∧
      s'.idx = s.idx + n ∧ s'.logFile.length = s.logFile.length + n := by
  induction n generalizing s with
  | zero => exact ⟨s, rfl, hrun, hlen, rfl, rfl⟩
  | succ k ih =>
    have hin : s.idx < s.adcData.length := by omega
    have hadv : advance s.idx = s.idx + 1 := by
      rw [advance_eq]
      split <;> omega
    obtain ⟨s', h1, h2, h3, h4, h5⟩ := ih
      { s with
        adcData := s.adcData.set s.idx (readADC dev s.spiLog SPI_CHANNEL_1 CHAN_CONF_SING s.idx).1
        idx := advance s.idx
        spiLog := (readADC dev s.spiLog SPI_CHANNEL_1 CHAN_CONF_SING s.idx).2
        logFile := s.logFile ++
          [logRecord s.idx (readADC dev s.spiLog SPI_CHANNEL_1 CHAN_CONF_SING s.idx).1] }
      hrun (by simpa using hlen) (by simp only [hadv]; omega)
    refine ⟨s', ?_, h2, h3, ?_, ?_⟩
    · show (if s.isRunning then (loopBody dev s).bind (runLoop dev k) else some s) = some s'
      rw [if_pos hrun, loopBody_in_bounds dev s hin]
      exact h1
    · rw [h4]
      simp only [hadv]
      omega
    · rw [h5]
      simp
      omega

/-- Six passes from the initial state complete and leave `idx = 6`. -/
theorem runLoop_six (dev : SpiDevice) :
    ∃ s, runLoop dev 6 initialState = some s ∧ s.isRunning = true ∧ s.adcData.length = 6 ∧
      s.idx = 6 ∧ s.logFile.length = 6 := by
  obtain ⟨s, h1, h2, h3, h4, h5⟩ :=
    runLoop_first_passes dev 6 initialState rfl rfl (by decide)
  exact ⟨s, h1, h2, h3, by simpa [initialState] using h4, by simpa [initialState] using h5⟩

/-- On a bus whose decoded value is always `v`, the first passes log `v` once per channel,
in index order, and store it in the buffer cell of each channel visited. -/
theorem runLoop_records (dev : SpiDevice) (v : Int)
    (hv : ∀ log c, c ≤ 7 → (readADC dev log SPI_CHANNEL_1 CHAN_CONF_SING c).1 = v)
    (n : Nat) (s : LoopState) (hrun : s.isRunning = true) (hlen : s.adcData.length = 6)
    (hidx : s.idx + n ≤ 6) :
    ∃ s', runLoop dev n s = some s' ∧
      s'.logFile = s.logFile ++ (List.range n).map (fun i => logRecord (s.idx + i) v) ∧
      (∀ j, s'.adcData[j]? =
        if s.idx ≤ j ∧ j < s.idx + n then some v else s.adcData[j]?) := by
  induction n generalizing s with
  | zero =>
    refine ⟨s, rfl, by simp, ?_⟩
    intro j
    rw [if_neg (by omega)]
  | succ k ih =>
    have hin : s.idx < s.adcData.length := by omega
    have hadv : advance s.idx = s.idx + 1 := by
      rw [advance_eq]
      split <;> omega
    have hval := hv s.spiLog s.idx (by omega)
    obtain ⟨s', h1, h2, h3⟩ := ih
      { s with
        adcData := s.adcData.set s.idx (readADC dev s.spiLog SPI_CHANNEL_1 CHAN_CONF_SING s.idx).1
        idx := advance s.idx
        spiLog := (readADC dev s.spiLog SPI_CHANNEL_1 CHAN_CONF_SING s.idx).2
        logFile := s.logFile ++
          [logRecord s.idx (readADC dev s.spiLog SPI_CHANNEL_1 CHAN_CONF_SING s.idx).1] }
      hrun (by simpa using hlen) (by simp only [hadv]; omega)
    refine ⟨s', ?_, ?_, ?_⟩
    · show (if s.isRunning then (loopBody dev s).bind (runLoop dev k) else some s) = some s'
      rw [if_pos hrun, loopBody_in_bounds dev s hin]
      exact h1
    · rw [h2, hval, List.range_succ_eq_map, List.map_cons, List.map_map, List.append_assoc]
      simp only [hadv, List.singleton_append, Nat.add_zero]
      congr 2
      apply List.map_congr_left
      intro i _
      simp only [Function.comp, Nat.succ_eq_add_one]
      congr 1
      omega
    · intro j
      rw [h3 j]
      simp only [hadv, hval, List.getElem?_set]
      by_cases hj : s.idx = j
      · subst hj
        rw [if_neg (by omega), if_pos rfl, if_pos hin, if_pos (by omega)]
      · rw [if_neg hj]
        by_cases hr : s.idx + 1 ≤ j ∧ j < s.idx + 1 + k
        · rw [if_pos hr, if_pos (by omega)]
        · rw [if_neg hr, if_neg (by omega)]

/-- What `readADC` returns on the mock bus that always answers `[b0, b1, b2]`. -/
theorem readADC_fixedReply (b0 b1 b2 : Nat) (log : List Exchange) (c : Nat) (hc : c ≤ 7) :
    (readADC (fixedReply b0 b1 b2) log SPI_CHANNEL_1 CHAN_CONF_SING c).1 =
      ((((toUInt8 b1 &&& 0x03) <<< 8) + toUInt8 b2 : Nat) : Int) :=
  readADC_value (fixedReply b0 b1 b2) log SPI_CHANNEL_1 CHAN_CONF_SING c hc

theorem idxAt_of_le (i : Nat) (h : i ≤ 6) : idxAt i = i := by
  cases i with
  | zero => rfl
  | succ m =>
    rw [idxAt_succ_eq]
    omega

/-- Seven or more passes from the initial state have no defined result: the seventh
stores through `adcData[6]`. -/
theorem runLoop_seven_or_more (dev : SpiDevice) (K : Nat) (hK : 7 ≤ K) :
    runLoop dev K initialState = none := by
  obtain ⟨s, h1, h2, h3, h4, -⟩ := runLoop_six dev
  obtain ⟨k, rfl⟩ : ∃ k, K = 6 + (1 + k) := ⟨K - 7, by omega⟩
  rw [runLoop_add, h1, Option.some_bind, runLoop_add]
  have hstep : runLoop dev 1 s = none := by
    show (if s.isRunning then (loopBody dev s).bind (runLoop dev 0) else some s) = none
    rw [if_pos h2, loopBody_out_of_bounds dev s (by omega)]
    rfl
  rw [hstep]
  rfl

/-! ## The channel sequence and the sample buffer -/

/-- Claim C5, evaluated on the code. The claim gives pass `n` the channel `n mod 6`; the
step of lines 75-76 gives the seventh pass (`n = 6`) channel 6, not 0. The indices of the
first thirteen passes are 0,1,2,3,4,5,6,1,2,3,4,5,6, and the code differs from `n mod 6`
exactly at the positive multiples of 6, where it uses 6. -/
theorem idxAt_six_not_zero :
    idxAt 6 = 6 ∧ 6 % 6 = 0 ∧ idxAt 6 ≠ 6 % 6 ∧
    (List.range 13).map idxAt = [0, 1, 2, 3, 4, 5, 6, 1, 2, 3, 4, 5, 6] ∧
    (∀ n, idxAt n = if n ≠ 0 ∧ n % 6 = 0 then 6 else n % 6) := by
  refine ⟨rfl, rfl, by decide, by decide, ?_⟩
  intro n
  cases n with
  | zero => rfl
  | succ m =>
    rw [idxAt_succ_eq]
    split <;> omega

/-- Claim C6, evaluated on the code. Six passes from the initial state complete and leave
`idx = 6`, with `isRunning` set, while `adcData` has six elements (valid indices 0..5): the seventh pass reads
`idx = 6`, its access `adcData[6]` is out of bounds and the pass has no defined result. -/
theorem adcData_index_reaches_six (dev : SpiDevice) :
    ∃ s, runLoop dev 6 initialState = some s ∧ s.isRunning = true ∧ s.idx = 6 ∧
      s.adcData.length = 6 ∧ ¬ s.idx < s.adcData.length ∧ ¬ s.idx ≤ 5 ∧
      loopBody dev s = none := by
  obtain ⟨s, h1, h2, h3, h4, -⟩ := runLoop_six dev
  exact ⟨s, h1, h2, h4, h3, by omega, by omega, loopBody_out_of_bounds dev s (by omega)⟩

/-- Claim C7, evaluated on the code. On a mock bus that always answers `[b0, b1, b2]`, `K`
passes from the initial state hand `K` records `"A<i>: <v>"` to `writeFile`, in index
order, with `v` the decoded reply also stored in `adcData[i]` - for `K` up to 6. The
seventh pass has index 6, for which `adcData` has no element, so for `K` of 7 or more
the run has no defined result. With reply `[0, 0x02, 0x34]`: six records of value 564,
then nothing defined. -/
theorem runLoop_fixedReply (b0 b1 b2 : Nat) :
    (∀ K, K ≤ 6 → ∃ s, runLoop (fixedReply b0 b1 b2) K initialState = some s ∧
      s.logFile = (List.range K).map
        (fun i => logRecord (idxAt i) ((((toUInt8 b1 &&& 0x03) <<< 8) + toUInt8 b2 : Nat) : Int)) ∧
      s.logFile.length = K ∧
      ∀ i, i < K →
        s.adcData[idxAt i]? = some ((((toUInt8 b1 &&& 0x03) <<< 8) + toUInt8 b2 : Nat) : Int)) ∧
    (∀ K, 7 ≤ K → runLoop (fixedReply b0 b1 b2) K initialState = none) ∧
    idxAt 6 = 6 ∧ initialState.adcData[6]? = none ∧
    (runLoop (fixedReply 0 0x02 0x34) 6 initialState).map LoopState.logFile
      = some ["A0: 564", "A1: 564", "A2: 564", "A3: 564", "A4: 564", "A5: 564"] ∧
    runLoop (fixedReply 0 0x02 0x34) 7 initialState = none := by
  refine ⟨?_, fun K hK => runLoop_seven_or_more _ K hK, rfl, rfl, rfl, rfl⟩
  intro K hK
  obtain ⟨s, h1, h2, h3⟩ := runLoop_records (fixedReply b0 b1 b2) _
    (fun log c hc => readADC_fixedReply b0 b1 b2 log c hc) K initialState rfl rfl
    (by simpa [initialState] using hK)
  have hlog : s.logFile = (List.range K).map
      (fun i => logRecord (idxAt i) ((((toUInt8 b1 &&& 0x03) <<< 8) + toUInt8 b2 : Nat) : Int)) := by
    rw [h2]
    simp only [initialState, List.nil_append, Nat.zero_add]
    apply List.map_congr_left
    intro i hi
    rw [idxAt_of_le i (by have := List.mem_range.mp hi; omega)]
  refine ⟨s, h1, hlog, by rw [hlog]; simp, ?_⟩
  intro i hi
  rw [idxAt_of_le i (by omega), h3 i, if_pos]
  simp only [initialState]
  omega

/-! ## The first seven passes and the wrap step -/

end MCP3008
